import Mathlib

/-!
Shallow embedding of `src/main.py` (a tiny telnet "hackmud" game server).

Modelling conventions:
  * Python strings are Lean `String`; `str.split(maxsplit=n)` and
    `str.startswith` / `str.lower` are re-implemented character by character
    with Python's semantics (`pySplit`, `pyStartsWith`, `pyLower`).
  * IP addresses are opaque allocation tokens modelled as `Nat`; the fixed
    enumeration `network.hosts()` of the CIDR block is the field
    `networkHosts : List Nat` of `Net`.  (`str(ip)` / `IPv4Address(s)` are a
    mutually inverse bijection in the source, so one token type suffices.)
  * Python `dict` (insertion ordered, unique keys) is an association list
    with `dictSet` / `dictGet` / `dictDel`; Python `set` is a duplicate-free
    `List Nat` (`add` appends, `remove` erases, raising `KeyError` when the
    element is absent).
  * A raised, uncaught Python exception is modelled as `Except.error ()` or
    as a `Bool` "raised" flag, depending on the caller.
-/

/-- Python whitespace test used by `str.split()` with no separator. -/
def isPySpace (c : Char) : Bool :=
  c = ' ' || c = '\t' || c = '\n' || c = '\r' || c = '\x0b' || c = '\x0c'

/-- Drop leading Python whitespace. -/
def dropWS : List Char → List Char
  | [] => []
  | c :: cs => if isPySpace c then dropWS cs else c :: cs

/-- The maximal whitespace-free token at the front. -/
def takeTok : List Char → List Char
  | [] => []
  | c :: cs => if isPySpace c then [] else c :: takeTok cs

/-- What is left after the maximal whitespace-free token at the front. -/
def dropTok : List Char → List Char
  | [] => []
  | c :: cs => if isPySpace c then c :: cs else dropTok cs

/-- `s.split(maxsplit=m)` on character lists: skip leading whitespace; once
`m` splits have been made the remainder (trailing whitespace included) is the
final chunk; no empty chunks are produced. -/
def pySplitChars : List Char → Nat → List (List Char)
  | s, m =>
    match dropWS s, m with
    | [], _ => []
    | c :: cs, 0 => [c :: cs]
    | c :: cs, n + 1 => takeTok (c :: cs) :: pySplitChars (dropTok (c :: cs)) n

/-- Python `s.split(maxsplit=m)`. -/
def pySplit (s : String) (m : Nat) : List String :=
  (pySplitChars s.data m).map String.mk

/-- `s.startswith(p)` on character lists. -/
def listStartsWith : List Char → List Char → Bool
  | _, [] => true
  | [], _ :: _ => false
  | c :: cs, p :: ps => c = p && listStartsWith cs ps

/-- Python `s.startswith(p)`. -/
def pyStartsWith (s p : String) : Bool :=
  listStartsWith s.data p.data

/-- Python `s.lower()` (ASCII commands only are ever compared). -/
def pyLower (s : String) : String :=
  String.mk (s.data.map Char.toLower)

/-- Python dict lookup (`d[k]` / `k in d`): first (only) binding of `k`. -/
def dictGet {α : Type} [DecidableEq α] {β : Type} : List (α × β) → α → Option β
  | [], _ => none
  | (k, v) :: rest, a => if k = a then some v else dictGet rest a

/-- Python dict assignment `d[k] = v`: update in place, else append. -/
def dictSet {α : Type} [DecidableEq α] {β : Type} : List (α × β) → α → β → List (α × β)
  | [], k, v => [(k, v)]
  | (k', v') :: rest, k, v =>
    if k' = k then (k, v) :: rest else (k', v') :: dictSet rest k v

/-- Python `del d[k]`: remove the (unique) binding of `k`. -/
def dictDel {α : Type} [DecidableEq α] {β : Type} : List (α × β) → α → List (α × β)
  | [], _ => []
  | (k', v') :: rest, k => if k' = k then rest else (k', v') :: dictDel rest k

/-- `d.keys()`. -/
def dictKeys {α : Type} {β : Type} (d : List (α × β)) : List α :=
  d.map Prod.fst

/-- A virtual host: one allocated address and its in-memory file store
(Python: `Host.__init__`; the `shell` field is behaviour, not data, and is
modelled by `Shell.execute_command` below). -/
structure Host where
  ip : Nat
  files : List (String × String)
  deriving DecidableEq, Repr

/-- `Host.create_file`: unconditional upsert, returns the confirmation text. -/
def Host.create_file (h : Host) (filename content : String) : String × Host :=
  ("File '" ++ filename ++ "' created with content: " ++ content,
   { h with files := dictSet h.files filename content })

/-- `Host.delete_file`: delete if present, else a "not found" text. -/
def Host.delete_file (h : Host) (filename : String) : String × Host :=
  if (dictGet h.files filename).isSome then
    ("File '" ++ filename ++ "' deleted.", { h with files := dictDel h.files filename })
  else
    ("File '" ++ filename ++ "' not found.", h)

/-- Newline join, as in Python `"\n".join(parts)`. -/
def joinLines : List String → String
  | [] => ""
  | [s] => s
  | s :: rest => s ++ "\n" ++ joinLines rest

/-- `Host.list_files`: the "no files" rendering on an empty store, otherwise
the newline-joined `name: content` lines. -/
def Host.list_files (h : Host) : String :=
  match h.files with
  | [] => "No files available."
  | fs => joinLines (fs.map fun fc => fc.1 ++ ": " ++ fc.2)

/-- `Shell.execute_command`: prefix-dispatch on the raw line.  `create` lines
are split with `maxsplit=2` and unpacked into exactly three names — fewer
parts raise `ValueError` (modelled `.error ()`); `delete` lines likewise with
`maxsplit=1` into two.  Returns the response text and the updated host. -/
def Shell.execute_command (host : Host) (command : String) :
    Except Unit (String × Host) :=
  if pyStartsWith command ("create ") then
    match pySplit command 2 with
    | [_, filename, content] => .ok (Host.create_file host filename content)
    | _ => .error ()
  else if pyStartsWith command ("delete ") then
    match pySplit command 1 with
    | [_, filename] => .ok (Host.delete_file host filename)
    | _ => .error ()
  else if pyLower command = "list" then
    .ok (Host.list_files host, host)
  else
    .ok ("Unknown command. Type 'help' for available commands.", host)

/-- The network (`Net.__init__`): the fixed enumeration of the address block,
the address→host dict and the set of used addresses. -/
structure Net where
  networkHosts : List Nat
  hosts : List (Nat × Host)
  used_ips : List Nat
  deriving DecidableEq, Repr

/-- A fresh network over a given address block (`Net('192.168.1.0/24')`). -/
def Net.init (space : List Nat) : Net :=
  { networkHosts := space, hosts := [], used_ips := [] }

/-- The scan inside `Net.get_unused_ip`: first enumerated address not in
`used_ips`. -/
def findUnused : List Nat → List Nat → Option Nat
  | [], _ => none
  | ip :: rest, used => if ip ∈ used then findUnused rest used else some ip

/-- `Net.get_unused_ip`: scan `network.hosts()` in order, claim and return
the first unused address, or `None` when every address is used. -/
def Net.get_unused_ip (net : Net) : Option Nat × Net :=
  match findUnused net.networkHosts net.used_ips with
  | some ip => (some ip, { net with used_ips := net.used_ips ++ [ip] })
  | none => (none, net)

/-- `Net.create_host`: allocate an address; on success register a fresh host
(empty file store) under it, else return `None`. -/
def Net.create_host (net : Net) : Option Host × Net :=
  match Net.get_unused_ip net with
  | (some ip, net') =>
    let newHost : Host := { ip := ip, files := [] }
    (some newHost, { net' with hosts := dictSet net'.hosts ip newHost })
  | (none, net') => (none, net')

/-- A player (`Player.__init__`): id, optionally an address and a bound host.
`host` mirrors the Python attribute that is `None` until a successful
connect. -/
structure Player where
  player_id : Nat
  ip : Option Nat
  host : Option Host
  deriving DecidableEq, Repr

/-- A freshly accepted player. -/
def Player.init (pid : Nat) : Player :=
  { player_id := pid, ip := none, host := none }

/-- Render `self.ip` the way Python string interpolation would. -/
def showOptIp : Option Nat → String
  | none => "None"
  | some n => toString n

/-- `Player.connect`: only when no address is held yet, ask the net for a
host; bind whatever comes back (possibly `None`) and report. -/
def Player.connect (p : Player) (net : Net) : Player × Net × String :=
  match p.ip with
  | none =>
    let r := Net.create_host net
    let newIp : Option Nat := r.1.map Host.ip
    ({ p with host := r.1, ip := newIp }, r.2,
     "Player " ++ toString p.player_id ++ " connected to IP " ++ showOptIp newIp)
  | some ip =>
    (p, net,
     "Player " ++ toString p.player_id ++ " already connected to IP " ++ toString ip)

/-- `Player.disconnect`: when a host is bound, `used_ips.remove(ip)` then
`del hosts[ip]`.  Returns the state reached and whether an uncaught
`KeyError`/`TypeError` was raised; a raising `remove` mutates nothing, a
raising `del` leaves the earlier `remove` in place. -/
def Player.disconnectState (p : Player) (net : Net) : Net × Bool :=
  match p.host with
  | none => (net, false)
  | some _ =>
    match p.ip with
    | none => (net, true)
    | some ip =>
      if ip ∈ net.used_ips then
        let net1 : Net := { net with used_ips := net.used_ips.erase ip }
        if (dictGet net1.hosts ip).isSome then
          ({ net1 with hosts := dictDel net1.hosts ip }, false)
        else
          (net1, true)
      else
        (net, true)

/-- Outcome of handling one input line inside `TelnetServer.handle_client`:
either the loop ends (`exit` branch), or a reply is written and the loop
continues, or an uncaught exception crashes the client task. -/
inductive LineOutcome where
  | exitMsg (s : String)
  | reply (s : String)
  | crash
  deriving DecidableEq, Repr

/-- The `ps` rendering: one line per used address. -/
def psMessage (net : Net) : String :=
  String.join (net.used_ips.map fun ip => toString ip ++ "\n")

/-- The static `help` text. -/
def helpMessage : String :=
  "Available commands:\n" ++
  "  create <filename> <content> - Create a file on your host.\n" ++
  "  delete <filename> - Delete a file on your host.\n" ++
  "  list - List all files on your host.\n" ++
  "  exit - Disconnect from the server.\n"

/-- One iteration of the read loop in `TelnetServer.handle_client`: built-in
`exit` / `ps` / `help` first, otherwise the line is delegated to
`player.host.shell.execute_command` — dereferencing `player.host`, which
raises `AttributeError` (modelled `.crash`) when no host is bound.  A shell
mutation is written back both to the player's host alias and to the registry
entry, as the two are one object in the source. -/
def handleLine (net : Net) (p : Player) (command : String) :
    LineOutcome × Net × Player :=
  if pyLower command = "exit" then
    match Player.disconnectState p net with
    | (net', false) =>
      (.exitMsg ("Player " ++ toString p.player_id ++ " disconnected from " ++
        showOptIp p.ip ++ ".\n"), net', p)
    | (net', true) => (.crash, net', p)
  else if pyLower command = "ps" then
    (.reply (psMessage net), net, p)
  else if pyLower command = "help" then
    (.reply helpMessage, net, p)
  else
    match p.host with
    | none => (.crash, net, p)
    | some h =>
      match Shell.execute_command h command with
      | .ok (resp, h') =>
        (.reply resp, { net with hosts := dictSet net.hosts h.ip h' },
         { p with host := some h' })
      | .error _ => (.crash, net, p)

/-- The connection-accept prelude of `TelnetServer.handle_client`: the new id
is `len(self.players) + 1` and the player is stored under it (players are
never removed from this dict). -/
structure Server where
  players : List (Nat × Player)
  deriving DecidableEq, Repr

/-- Accept one connection: assign the id and register the player. -/
def acceptClient (s : Server) : Server × Nat :=
  let pid := s.players.length + 1
  ({ players := s.players ++ [(pid, Player.init pid)] }, pid)

/-- Server-level events: a connection accept, or any event of an existing
session (command lines, disconnects) — none of the latter touch `players`. -/
inductive SrvOp where
  | accept
  | sessionEvent
  deriving DecidableEq, Repr

/-- Run a sequence of server events from a server state, collecting the
session ids assigned at each accept, in order. -/
def runServer : Server → List SrvOp → Server × List Nat
  | s, [] => (s, [])
  | s, .accept :: ops =>
    let r := acceptClient s
    let rest := runServer r.1 ops
    (rest.1, r.2 :: rest.2)
  | s, .sessionEvent :: ops => runServer s ops

/-- The number of accepts in a server event sequence. -/
def countAccepts : List SrvOp → Nat
  | [] => 0
  | .accept :: ops => countAccepts ops + 1
  | .sessionEvent :: ops => countAccepts ops

/-- Pool-level operations: an allocation attempt (`get_unused_ip`) or a
release of an address (the `used_ips.remove` of a disconnect). -/
inductive PoolOp where
  | alloc
  | release (a : Nat)
  deriving DecidableEq, Repr

/-- Run pool operations, also counting N = successful allocations and
M = releases that actually removed an address (a release of an address not
held raises `KeyError` in the source and removes nothing). -/
def runPoolCount : Net → List PoolOp → Net × Nat × Nat
  | net, [] => (net, 0, 0)
  | net, .alloc :: ops =>
    match Net.get_unused_ip net with
    | (some _, net') =>
      let r := runPoolCount net' ops
      (r.1, r.2.1 + 1, r.2.2)
    | (none, net') => runPoolCount net' ops
  | net, .release a :: ops =>
    if a ∈ net.used_ips then
      let r := runPoolCount { net with used_ips := net.used_ips.erase a } ops
      (r.1, r.2.1, r.2.2 + 1)
    else
      runPoolCount net ops

/-- Registry-level operations for the `hosts.keys() == used_ips` invariant:
a `create_host`, or the disconnect cleanup of an arbitrary player value. -/
inductive NetOp where
  | create
  | disc (p : Player)

/-- Run registry operations (disconnects keep whatever state the source
reaches, an exception included). -/
def runNetOps : Net → List NetOp → Net
  | net, [] => net
  | net, .create :: ops => runNetOps (Net.create_host net).2 ops
  | net, .disc p :: ops => runNetOps (Player.disconnectState p net).1 ops

/-- Iterate `create_host` n times, collecting the allocated addresses. -/
def createHostsN : Net → Nat → List (Option Nat) × Net
  | net, 0 => ([], net)
  | net, k + 1 =>
    let r := Net.create_host net
    let rest := createHostsN r.2 k
    ((r.1.map Host.ip) :: rest.1, rest.2)

/-- C1: the claim says a session left without a host (no-capacity connect)
has every file command answered with a "not connected" report and never
crashes.  The code instead dereferences the absent host: with an exhausted
pool (here the empty address block), `connect` binds no host, and each
non-built-in line — `list`, `create`, `delete`, or anything else — reaches
`player.host.shell` and raises `AttributeError` (modelled as `.crash`). -/
theorem c1_absent_host_dispatch_crashes :
    (handleLine (Player.connect (Player.init 1) (Net.init [])).2.1
      (Player.connect (Player.init 1) (Net.init [])).1 ("list")).1 = .crash ∧
    (handleLine (Player.connect (Player.init 1) (Net.init [])).2.1
      (Player.connect (Player.init 1) (Net.init [])).1 ("create f x")).1 = .crash ∧
    (handleLine (Player.connect (Player.init 1) (Net.init [])).2.1
      (Player.connect (Player.init 1) (Net.init [])).1 ("delete f")).1 = .crash ∧
    (handleLine (Player.connect (Player.init 1) (Net.init [])).2.1
      (Player.connect (Player.init 1) (Net.init [])).1 ("whoami")).1 = .crash := by
  refine ⟨?_, ?_, ?_, ?_⟩ <;> rfl

/-- C5: the claim says a `create` line with fewer than two arguments after
the keyword yields a recoverable `MalformedCommand` outcome.  The code
instead raises `ValueError` while unpacking `command.split(maxsplit=2)`
(first conjunct).  The second conjunct records the part of the claim the
code does satisfy: with ≥ 2 arguments the stored content is the remainder of
the line after the second token, internal and trailing whitespace kept. -/
theorem c5_create_missing_content_raises :
    Shell.execute_command (⟨1, []⟩ : Host) ("create onlyname") = .error () ∧
    Shell.execute_command (⟨1, []⟩ : Host) ("create f hello  world ") =
      .ok ("File 'f' created with content: hello  world ",
        ⟨1, [("f", "hello  world ")]⟩) :=
  ⟨rfl, rfl⟩

/-- C6: the claim says `delete` demands exactly one argument and anything
else is `MalformedCommand`.  The code instead: treats `delete a b` as a
valid deletion of the file named "a b" (split with `maxsplit=1`), answers a
bare `delete` with the generic unknown-command text, and raises `ValueError`
on `delete ` (keyword plus trailing space only). -/
theorem c6_delete_arity_not_enforced :
    Shell.execute_command (⟨1, [("a b", "x")]⟩ : Host) ("delete a b") =
      .ok ("File 'a b' deleted.", ⟨1, []⟩) ∧
    Shell.execute_command (⟨1, []⟩ : Host) ("delete") =
      .ok ("Unknown command. Type 'help' for available commands.", ⟨1, []⟩) ∧
    Shell.execute_command (⟨1, []⟩ : Host) ("delete ") = .error () :=
  ⟨rfl, rfl, rfl⟩

/-- C7: the claim says a second disconnect cleanup for the same session is a
benign no-op that does not raise.  In the code `Player.disconnect` leaves
`self.host` set, so a second call repeats `used_ips.remove(...)` on an
address no longer present and raises `KeyError`: on a one-address pool the
first cleanup succeeds (flag `false`), the immediate second cleanup raises
(flag `true`). -/
theorem c7_double_disconnect_raises :
    ((Player.disconnectState (Player.connect (Player.init 1) (Net.init [7])).1
        (Player.connect (Player.init 1) (Net.init [7])).2.1).2 = false) ∧
    ((Player.disconnectState (Player.connect (Player.init 1) (Net.init [7])).1
        (Player.disconnectState (Player.connect (Player.init 1) (Net.init [7])).1
          (Player.connect (Player.init 1) (Net.init [7])).2.1).1).2 = true) := by
  exact ⟨rfl, rfl⟩

/-- C10: connecting an already-connected player is idempotent: whenever the
player's address is set, `Player.connect` allocates nothing, creates no
host, and returns the player and the network unchanged (only reporting the
existing binding). -/
theorem c10_connect_idempotent (p : Player) (net : Net) (a : Nat)
    (h : p.ip = some a) :
    (Player.connect p net).1 = p ∧ (Player.connect p net).2.1 = net := by
  unfold Player.connect
  rw [h]
  exact ⟨rfl, rfl⟩

/-- Witness for C10 at a concrete connected player and network. -/
theorem c10_connect_idempotent_witness :
    (Player.connect ⟨3, some 5, some ⟨5, []⟩⟩ (Net.init [5])).1 =
      (⟨3, some 5, some ⟨5, []⟩⟩ : Player) ∧
    (Player.connect ⟨3, some 5, some ⟨5, []⟩⟩ (Net.init [5])).2.1 =
      Net.init [5] :=
  c10_connect_idempotent ⟨3, some 5, some ⟨5, []⟩⟩ (Net.init [5]) 5 rfl

/-- Every rendered `name: content` entry contains a colon. -/
theorem colon_mem_entry (f c : String) : (':' : Char) ∈ (f ++ ": " ++ c).data := by
  rw [String.data_append, String.data_append]
  exact List.mem_append_left _ (List.mem_append_right _ (by decide))

/-- A character of the first part survives a newline join. -/
theorem mem_joinLines_head (ch : Char) (s : String) (rest : List String)
    (hs : ch ∈ s.data) : ch ∈ (joinLines (s :: rest)).data := by
  cases rest with
  | nil => simpa [joinLines] using hs
  | cons t ts =>
    have hjoin : joinLines (s :: t :: ts) = s ++ "\n" ++ joinLines (t :: ts) := rfl
    rw [hjoin, String.data_append, String.data_append]
    exact List.mem_append_left _ (List.mem_append_left _ hs)

/-- A populated listing always differs from the "no files" rendering: it
contains a colon, which the "no files" text does not. -/
theorem populated_listing_ne_noFiles (h : Host) (hne : h.files ≠ []) :
    Host.list_files h ≠ "No files available." := by
  intro heq
  have hc : (':' : Char) ∈ (Host.list_files h).data := by
    cases hfs : h.files with
    | nil => exact absurd hfs hne
    | cons fc rest =>
      have hlf : Host.list_files h =
          joinLines ((fc.1 ++ ": " ++ fc.2) :: rest.map fun x => x.1 ++ ": " ++ x.2) := by
        unfold Host.list_files
        rw [hfs]
        rfl
      rw [hlf]
      exact mem_joinLines_head _ _ _ (colon_mem_entry fc.1 fc.2)
  rw [heq] at hc
  exact absurd hc (by decide)

/-- C8: filesystem round-trip.  On a fresh empty store, creating
`a.txt` with content `hi` and listing yields exactly the one entry
`a.txt: hi`; deleting `a.txt` and listing yields the distinct "no files"
rendering, which no populated listing can ever equal. -/
theorem c8_fs_roundtrip :
    (Host.create_file (⟨1, []⟩ : Host) ("a.txt") ("hi")).2.files =
      [("a.txt", "hi")] ∧
    Host.list_files (Host.create_file (⟨1, []⟩ : Host) ("a.txt") ("hi")).2 =
      "a.txt: hi" ∧
    (Host.delete_file (Host.create_file (⟨1, []⟩ : Host) ("a.txt") ("hi")).2
      ("a.txt")).2.files = [] ∧
    Host.list_files
      (Host.delete_file (Host.create_file (⟨1, []⟩ : Host) ("a.txt") ("hi")).2
        ("a.txt")).2 = "No files available." ∧
    ∀ h : Host, h.files ≠ [] → Host.list_files h ≠ "No files available." :=
  ⟨rfl, rfl, rfl, rfl, populated_listing_ne_noFiles⟩

/-- Witness for C8 on a concrete one-file host. -/
theorem c8_fs_roundtrip_witness :
    Host.list_files (⟨2, [("f", "c")]⟩ : Host) ≠ "No files available." :=
  c8_fs_roundtrip.2.2.2.2 ⟨2, [("f", "c")]⟩ (by decide)

/-- The ids handed out by a run are consecutive, starting one past the
number of already-registered players (players are never removed, so the
counter never goes back). -/
theorem runServer_ids (ops : List SrvOp) (s : Server) :
    (runServer s ops).2 = List.range' (s.players.length + 1) (countAccepts ops) := by
  induction ops generalizing s with
  | nil => rfl
  | cons op ops ih =>
    cases op with
    | accept =>
      have hlen : (acceptClient s).1.players.length = s.players.length + 1 := by
        simp [acceptClient]
      have hrun : (runServer s (SrvOp.accept :: ops)).2 =
          (s.players.length + 1) :: (runServer (acceptClient s).1 ops).2 := rfl
      rw [hrun, ih, hlen, countAccepts, List.range'_succ]
    | sessionEvent =>
      have hrun : (runServer s (SrvOp.sessionEvent :: ops)).2 =
          (runServer s ops).2 := rfl
      rw [hrun, ih, countAccepts]

/-- C9: over every sequence of connection accepts (with arbitrary session
events such as disconnects interleaved, which never shrink the player
table), the session ids assigned are exactly 1, 2, …, n in order: unique,
strictly increasing, and never reused later. -/
theorem c9_session_ids_monotone (ops : List SrvOp) :
    (runServer ⟨[]⟩ ops).2 = List.range' 1 (countAccepts ops) ∧
    (runServer ⟨[]⟩ ops).2.Pairwise (· < ·) ∧
    (runServer ⟨[]⟩ ops).2.Nodup := by
  have h := runServer_ids ops ⟨[]⟩
  refine ⟨h, ?_, ?_⟩
  · rw [h]; exact List.pairwise_lt_range' 1 _ 1 Nat.one_pos
  · rw [h]; exact List.nodup_range' 1 _ 1 Nat.one_pos

/-- The key list of a nonempty dict. -/
theorem dictKeys_cons {β : Type} (k : Nat) (v : β) (d : List (Nat × β)) :
    dictKeys ((k, v) :: d) = k :: dictKeys d := rfl

/-- Key membership after a dict assignment. -/
theorem mem_dictKeys_dictSet {β : Type} (d : List (Nat × β)) (k : Nat) (v : β)
    (a : Nat) : a ∈ dictKeys (dictSet d k v) ↔ a ∈ dictKeys d ∨ a = k := by
  induction d with
  | nil =>
    show a ∈ dictKeys [(k, v)] ↔ a ∈ dictKeys ([] : List (Nat × β)) ∨ a = k
    rw [dictKeys_cons]
    simp [dictKeys]
  | cons kv rest ih =>
    obtain ⟨k', v'⟩ := kv
    by_cases h : k' = k
    · subst h
      simp only [dictSet, eq_self_iff_true, if_true]
      rw [dictKeys_cons, dictKeys_cons]
      simp only [List.mem_cons]
      tauto
    · simp only [dictSet, if_neg h]
      rw [dictKeys_cons, dictKeys_cons]
      simp only [List.mem_cons]
      rw [ih]
      tauto

/-- A dict assignment keeps the keys duplicate-free. -/
theorem nodup_dictKeys_dictSet {β : Type} (d : List (Nat × β)) (k : Nat) (v : β)
    (hnd : (dictKeys d).Nodup) : (dictKeys (dictSet d k v)).Nodup := by
  induction d with
  | nil => simp [dictSet, dictKeys]
  | cons kv rest ih =>
    obtain ⟨k', v'⟩ := kv
    rw [dictKeys_cons, List.nodup_cons] at hnd
    by_cases h : k' = k
    · subst h
      simp only [dictSet, eq_self_iff_true, if_true]
      rw [dictKeys_cons, List.nodup_cons]
      exact hnd
    · simp only [dictSet, if_neg h]
      rw [dictKeys_cons, List.nodup_cons]
      refine ⟨fun hmem => ?_, ih hnd.2⟩
      rcases (mem_dictKeys_dictSet rest k v k').mp hmem with hk | hk
      · exact hnd.1 hk
      · exact h hk

/-- Key membership after a dict deletion (keys duplicate-free). -/
theorem mem_dictKeys_dictDel {β : Type} (d : List (Nat × β)) (k : Nat) (a : Nat)
    (hnd : (dictKeys d).Nodup) :
    a ∈ dictKeys (dictDel d k) ↔ a ∈ dictKeys d ∧ a ≠ k := by
  induction d with
  | nil => simp [dictDel, dictKeys]
  | cons kv rest ih =>
    obtain ⟨k', v'⟩ := kv
    rw [dictKeys_cons, List.nodup_cons] at hnd
    by_cases h : k' = k
    · subst h
      simp only [dictDel, eq_self_iff_true, if_true]
      rw [dictKeys_cons]
      simp only [List.mem_cons]
      constructor
      · intro hmem
        refine ⟨Or.inr hmem, fun hak => ?_⟩
        subst hak
        exact hnd.1 hmem
      · rintro ⟨hmem | hmem, hne⟩
        · exact absurd hmem hne
        · exact hmem
    · simp only [dictDel, if_neg h]
      rw [dictKeys_cons, dictKeys_cons]
      simp only [List.mem_cons]
      rw [ih hnd.2]
      constructor
      · rintro (hk | ⟨hmem, hne⟩)
        · subst hk
          exact ⟨Or.inl rfl, h⟩
        · exact ⟨Or.inr hmem, hne⟩
      · rintro ⟨hk | hmem, hne⟩
        · exact Or.inl hk
        · exact Or.inr ⟨hmem, hne⟩

/-- A dict deletion keeps the keys duplicate-free. -/
theorem nodup_dictKeys_dictDel {β : Type} (d : List (Nat × β)) (k : Nat)
    (hnd : (dictKeys d).Nodup) : (dictKeys (dictDel d k)).Nodup := by
  induction d with
  | nil => simp [dictDel, dictKeys]
  | cons kv rest ih =>
    obtain ⟨k', v'⟩ := kv
    rw [dictKeys_cons, List.nodup_cons] at hnd
    by_cases h : k' = k
    · subst h
      simp only [dictDel, eq_self_iff_true, if_true]
      exact hnd.2
    · simp only [dictDel, if_neg h]
      rw [dictKeys_cons, List.nodup_cons]
      refine ⟨fun hmem => ?_, ih hnd.2⟩
      exact hnd.1 ((mem_dictKeys_dictDel rest k k' hnd.2).mp hmem).1

/-- A dict lookup succeeds exactly on the keys. -/
theorem dictGet_isSome_iff {β : Type} (d : List (Nat × β)) (a : Nat) :
    (dictGet d a).isSome ↔ a ∈ dictKeys d := by
  induction d with
  | nil => simp [dictGet, dictKeys]
  | cons kv rest ih =>
    obtain ⟨k, v⟩ := kv
    rw [dictKeys_cons]
    by_cases h : k = a
    · subst h
      simp [dictGet]
    · simp only [dictGet, if_neg h, List.mem_cons]
      rw [ih]
      constructor
      · exact fun hm => Or.inr hm
      · rintro (hk | hm)
        · exact absurd hk.symm h
        · exact hm

/-- A successful scan returns an enumerated, unused address. -/
theorem findUnused_some {space used : List Nat} {ip : Nat}
    (h : findUnused space used = some ip) : ip ∈ space ∧ ip ∉ used := by
  induction space with
  | nil => exact absurd h (by simp [findUnused])
  | cons a rest ih =>
    by_cases ha : a ∈ used
    · simp only [findUnused, if_pos ha] at h
      obtain ⟨h1, h2⟩ := ih h
      exact ⟨List.mem_cons_of_mem a h1, h2⟩
    · simp only [findUnused, if_neg ha] at h
      cases h
      exact ⟨List.mem_cons_self .., ha⟩

/-- A successful scan returns the first unused address: everything
enumerated before it is used. -/
theorem findUnused_some_decomp {space used : List Nat} {ip : Nat}
    (h : findUnused space used = some ip) :
    ∃ l₁ l₂, space = l₁ ++ ip :: l₂ ∧ ip ∉ used ∧ ∀ b ∈ l₁, b ∈ used := by
  induction space with
  | nil => exact absurd h (by simp [findUnused])
  | cons a rest ih =>
    by_cases ha : a ∈ used
    · simp only [findUnused, if_pos ha] at h
      obtain ⟨l₁, l₂, hsp, hip, hall⟩ := ih h
      refine ⟨a :: l₁, l₂, by rw [hsp]; rfl, hip, ?_⟩
      intro b hb
      rcases List.mem_cons.mp hb with hb | hb
      · subst hb; exact ha
      · exact hall b hb
    · simp only [findUnused, if_neg ha] at h
      cases h
      exact ⟨[], rest, rfl, ha, by simp⟩

/-- The scan fails exactly when every enumerated address is used. -/
theorem findUnused_eq_none_iff (space used : List Nat) :
    findUnused space used = none ↔ ∀ a ∈ space, a ∈ used := by
  induction space with
  | nil => simp [findUnused]
  | cons a rest ih =>
    by_cases ha : a ∈ used
    · simp only [findUnused, if_pos ha]
      rw [ih]
      constructor
      · intro hall b hb
        rcases List.mem_cons.mp hb with hb | hb
        · subst hb; exact ha
        · exact hall b hb
      · intro hall b hb
        exact hall b (List.mem_cons_of_mem a hb)
    · simp only [findUnused, if_neg ha]
      constructor
      · intro h; cases h
      · intro hall
        exact absurd (hall a (List.mem_cons_self ..)) ha

/-- The registry/pool consistency invariant of the source: duplicate-free
used-set and host keys, and the two agree. -/
def NetInv (net : Net) : Prop :=
  net.used_ips.Nodup ∧ (dictKeys net.hosts).Nodup ∧
  ∀ a, a ∈ dictKeys net.hosts ↔ a ∈ net.used_ips

/-- `create_host` preserves the consistency invariant. -/
theorem netInv_create_host (net : Net) (h : NetInv net) :
    NetInv (Net.create_host net).2 := by
  obtain ⟨hu, hk, hiff⟩ := h
  unfold Net.create_host Net.get_unused_ip
  cases hf : findUnused net.networkHosts net.used_ips with
  | none => exact ⟨hu, hk, hiff⟩
  | some ip =>
    obtain ⟨-, hip⟩ := findUnused_some hf
    refine ⟨by simp [List.nodup_append, hu, hip], nodup_dictKeys_dictSet _ _ _ hk, ?_⟩
    intro a
    rw [mem_dictKeys_dictSet, hiff]
    simp [List.mem_append]

/-- Disconnect cleanup preserves the consistency invariant — even on its
raising paths, which mutate nothing before they raise. -/
theorem netInv_disconnect (p : Player) (net : Net) (h : NetInv net) :
    NetInv (Player.disconnectState p net).1 := by
  obtain ⟨hu, hk, hiff⟩ := h
  unfold Player.disconnectState
  cases p.host with
  | none => exact ⟨hu, hk, hiff⟩
  | some h0 =>
    cases p.ip with
    | none => exact ⟨hu, hk, hiff⟩
    | some ip =>
      by_cases hip : ip ∈ net.used_ips
      · have hkey : ip ∈ dictKeys net.hosts := (hiff ip).mpr hip
        have hsome : (dictGet net.hosts ip).isSome := (dictGet_isSome_iff _ _).mpr hkey
        simp only [if_pos hip, hsome, if_pos]
        refine ⟨List.Nodup.erase ip hu, nodup_dictKeys_dictDel _ _ hk, ?_⟩
        intro a
        rw [mem_dictKeys_dictDel _ _ _ hk, hiff, List.Nodup.mem_erase_iff hu]
        tauto
      · simp only [if_neg hip]
        exact ⟨hu, hk, hiff⟩

/-- The consistency invariant holds along every run. -/
theorem netInv_runNetOps (ops : List NetOp) (net : Net) (h : NetInv net) :
    NetInv (runNetOps net ops) := by
  induction ops generalizing net with
  | nil => exact h
  | cons op ops ih =>
    cases op with
    | create => exact ih _ (netInv_create_host net h)
    | disc p => exact ih _ (netInv_disconnect p net h)

/-- C2: starting from the fresh registry, after every sequence of
`create_host` and disconnect-cleanup operations (hence after each operation
of any such sequence, its prefixes being such sequences) the keys of the
host map and the allocated addresses of the pool are the same set: each
allocated address has exactly one live host and each live host's address is
allocated. -/
theorem c2_hosts_keys_eq_used_ips (space : List Nat) (ops : List NetOp) (a : Nat) :
    a ∈ dictKeys (runNetOps (Net.init space) ops).hosts ↔
      a ∈ (runNetOps (Net.init space) ops).used_ips := by
  have h : NetInv (Net.init space) := by
    refine ⟨List.nodup_nil, List.nodup_nil, ?_⟩
    intro a
    simp [Net.init, dictKeys]
  exact (netInv_runNetOps ops (Net.init space) h).2.2 a

/-- Book-keeping for any pool run: the used-set length plus the number of
effective releases equals the starting length plus the number of successful
allocations. -/
theorem runPoolCount_conservation (ops : List PoolOp) (net : Net) :
    (runPoolCount net ops).1.used_ips.length + (runPoolCount net ops).2.2 =
      net.used_ips.length + (runPoolCount net ops).2.1 := by
  induction ops generalizing net with
  | nil => rfl
  | cons op ops ih =>
    cases op with
    | alloc =>
      unfold runPoolCount Net.get_unused_ip
      cases hf : findUnused net.networkHosts net.used_ips with
      | some ip =>
        dsimp only
        have := ih { net with used_ips := net.used_ips ++ [ip] }
        simp only [List.length_append, List.length_singleton] at this
        omega
      | none =>
        exact ih net
    | release a =>
      by_cases ha : a ∈ net.used_ips
      · have hpos : 0 < net.used_ips.length := List.length_pos_of_mem ha
        have hlen : ({ net with used_ips := net.used_ips.erase a } : Net).used_ips.length =
            net.used_ips.length - 1 := List.length_erase_of_mem ha
        unfold runPoolCount
        rw [if_pos ha]
        dsimp only
        have := ih { net with used_ips := net.used_ips.erase a }
        rw [hlen] at this
        omega
      · unfold runPoolCount
        rw [if_neg ha]
        exact ih net

/-- C3: allocation scans the enumeration in its fixed order and hands out
the first unused address (first conjunct: any successful `get_unused_ip`
splits the enumeration as `l₁ ++ [a] ++ l₂` with `a` unused and every
address of `l₁` used — so a freed address is deterministically the next one
reused when it is the lowest-order free address).  Second conjunct: from the
fresh pool, after any operation sequence with N successful allocations and M
effective releases, exactly N − M addresses are allocated (stated
additively: `length + M = N`). -/
theorem c3_first_free_and_conservation :
    (∀ (net : Net) (a : Nat) (net' : Net),
        Net.get_unused_ip net = (some a, net') →
        a ∉ net.used_ips ∧
          ∃ l₁ l₂, net.networkHosts = l₁ ++ a :: l₂ ∧ ∀ b ∈ l₁, b ∈ net.used_ips) ∧
    ∀ (space : List Nat) (ops : List PoolOp),
        (runPoolCount (Net.init space) ops).1.used_ips.length +
            (runPoolCount (Net.init space) ops).2.2 =
          (runPoolCount (Net.init space) ops).2.1 := by
  constructor
  · intro net a net' h
    unfold Net.get_unused_ip at h
    cases hf : findUnused net.networkHosts net.used_ips with
    | none => rw [hf] at h; cases h
    | some ip =>
      rw [hf] at h
      cases h
      obtain ⟨l₁, l₂, hsp, hip, hall⟩ := findUnused_some_decomp hf
      exact ⟨hip, l₁, l₂, hsp, hall⟩
  · intro space ops
    have := runPoolCount_conservation ops (Net.init space)
    simpa [Net.init] using this

/-- Witness for C3: on the pool `[5, 6]` with `5` used, allocation returns
`6` — unused, and preceded only by used addresses — and a run of two
successful allocations and one effective release from the fresh pool leaves
one address allocated. -/
theorem c3_first_free_and_conservation_witness :
    ((6 : Nat) ∉ ({ networkHosts := [5, 6], hosts := [], used_ips := [5] } : Net).used_ips ∧
      ∃ l₁ l₂, ({ networkHosts := [5, 6], hosts := [], used_ips := [5] } : Net).networkHosts =
        l₁ ++ 6 :: l₂ ∧
        ∀ b ∈ l₁, b ∈ ({ networkHosts := [5, 6], hosts := [], used_ips := [5] } : Net).used_ips) ∧
    (runPoolCount (Net.init [5, 6])
          [PoolOp.alloc, PoolOp.alloc, PoolOp.release 5]).1.used_ips.length +
        (runPoolCount (Net.init [5, 6])
          [PoolOp.alloc, PoolOp.alloc, PoolOp.release 5]).2.2 =
      (runPoolCount (Net.init [5, 6]) [PoolOp.alloc, PoolOp.alloc, PoolOp.release 5]).2.1 :=
  ⟨c3_first_free_and_conservation.1
      { networkHosts := [5, 6], hosts := [], used_ips := [5] } 6
      { networkHosts := [5, 6], hosts := [], used_ips := [5, 6] } rfl,
    c3_first_free_and_conservation.2 [5, 6] [PoolOp.alloc, PoolOp.alloc, PoolOp.release 5]⟩

/-- One unfolding of `createHostsN` (results component). -/
theorem createHostsN_succ_fst (net : Net) (k : Nat) :
    (createHostsN net (k + 1)).1 =
      (Net.create_host net).1.map Host.ip ::
        (createHostsN (Net.create_host net).2 k).1 := rfl

/-- One unfolding of `createHostsN` (state component). -/
theorem createHostsN_succ_snd (net : Net) (k : Nat) :
    (createHostsN net (k + 1)).2 = (createHostsN (Net.create_host net).2 k).2 := rfl

/-- `createHostsN` always returns one result per call. -/
theorem createHostsN_length (k : Nat) (net : Net) :
    (createHostsN net k).1.length = k := by
  induction k generalizing net with
  | zero => rfl
  | succ k ih =>
    rw [createHostsN_succ_fst, List.length_cons, ih]

/-- Splitting a `createHostsN` run into two consecutive runs. -/
theorem createHostsN_add (j k : Nat) (net : Net) :
    (createHostsN net (j + k)).1 =
      (createHostsN net j).1 ++ (createHostsN (createHostsN net j).2 k).1 ∧
    (createHostsN net (j + k)).2 = (createHostsN (createHostsN net j).2 k).2 := by
  induction j generalizing net with
  | zero =>
    rw [Nat.zero_add]
    exact ⟨rfl, rfl⟩
  | succ j ih =>
    rw [Nat.succ_add]
    rw [createHostsN_succ_fst, createHostsN_succ_snd,
      createHostsN_succ_fst, createHostsN_succ_snd]
    obtain ⟨ih1, ih2⟩ := ih (Net.create_host net).2
    rw [ih1, ih2]
    exact ⟨rfl, rfl⟩

/-- Keeping only the successes of an all-success list keeps its length. -/
theorem length_filterMap_id_of_isSome {l : List (Option Nat)}
    (h : ∀ r ∈ l, r.isSome) : (l.filterMap id).length = l.length := by
  induction l with
  | nil => rfl
  | cons a l ih =>
    cases a with
    | none => exact absurd (h none (List.mem_cons_self ..)) (by simp)
    | some x =>
      have : (some x :: l).filterMap id = x :: l.filterMap id := rfl
      rw [this, List.length_cons, List.length_cons,
        ih fun r hr => h r (List.mem_cons_of_mem _ hr)]

/-- As long as capacity remains, every `create_host` in a run succeeds, the
allocated addresses extend the used set in order, and the used set stays
duplicate-free and inside the enumeration. -/
theorem createHostsN_success (k : Nat) (net : Net)
    (hspace : net.networkHosts.Nodup)
    (hu : net.used_ips.Nodup)
    (hsub : ∀ a ∈ net.used_ips, a ∈ net.networkHosts)
    (hcap : k + net.used_ips.length ≤ net.networkHosts.length) :
    (createHostsN net k).2.networkHosts = net.networkHosts ∧
    (createHostsN net k).2.used_ips =
      net.used_ips ++ (createHostsN net k).1.filterMap id ∧
    (∀ r ∈ (createHostsN net k).1, r.isSome) ∧
    (createHostsN net k).2.used_ips.Nodup ∧
    (∀ a ∈ (createHostsN net k).2.used_ips, a ∈ net.networkHosts) := by
  induction k generalizing net with
  | zero =>
    refine ⟨rfl, by simp [createHostsN], by simp [createHostsN], hu, hsub⟩
  | succ k ih =>
    cases hip : findUnused net.networkHosts net.used_ips with
    | none =>
      have hall := (findUnused_eq_none_iff _ _).mp hip
      have := (List.subperm_of_subset hspace hall).length_le
      omega
    | some ip =>
      obtain ⟨hipsp, hipused⟩ := findUnused_some hip
      have hch : Net.create_host net =
          (some { ip := ip, files := [] },
           { networkHosts := net.networkHosts,
             hosts := dictSet net.hosts ip { ip := ip, files := [] },
             used_ips := net.used_ips ++ [ip] }) := by
        unfold Net.create_host Net.get_unused_ip
        rw [hip]
      have hu1 : (net.used_ips ++ [ip]).Nodup := by
        simp [List.nodup_append, hu, hipused]
      have hsub1 : ∀ a ∈ net.used_ips ++ [ip], a ∈ net.networkHosts := by
        intro a ha
        rcases List.mem_append.mp ha with ha | ha
        · exact hsub a ha
        · rw [List.mem_singleton.mp ha]; exact hipsp
      have hcap1 : k + (net.used_ips ++ [ip]).length ≤ net.networkHosts.length := by
        rw [List.length_append, List.length_singleton]
        omega
      obtain ⟨ihnh, ihused, ihsome, ihnd, ihmem⟩ :=
        ih { networkHosts := net.networkHosts,
             hosts := dictSet net.hosts ip { ip := ip, files := [] },
             used_ips := net.used_ips ++ [ip] } hspace hu1 hsub1 hcap1
      rw [createHostsN_succ_fst, createHostsN_succ_snd, hch]
      dsimp only
      refine ⟨ihnh, ?_, ?_, ihnd, ihmem⟩
      · rw [ihused]
        dsimp only
        rw [List.append_assoc]
        rfl
      · intro r hr
        rcases List.mem_cons.mp hr with hr | hr
        · rw [hr]; rfl
        · exact ihsome r hr

/-- C4: on an address space of size K (no duplicates, as a CIDR enumeration
has none), K + 1 straight `create_host` calls from the fresh network produce
K successes with pairwise distinct addresses followed by one no-capacity
`None` — no crash, no duplicate hand-out. -/
theorem c4_exhaustion (space : List Nat) (hnd : space.Nodup) :
    (createHostsN (Net.init space) (space.length + 1)).1.length = space.length + 1 ∧
    (∀ r ∈ (createHostsN (Net.init space) (space.length + 1)).1.take space.length,
      r.isSome) ∧
    ((createHostsN (Net.init space) (space.length + 1)).1.filterMap id).Nodup ∧
    (createHostsN (Net.init space) (space.length + 1)).1.getLast? = some none := by
  have hinit : (Net.init space).networkHosts = space := rfl
  obtain ⟨h1nh, h1used, h1some, h1nd, h1mem⟩ :=
    createHostsN_success space.length (Net.init space) hnd List.nodup_nil
      (by intro a ha; cases ha) (by simp [Net.init])
  have hlenres : (createHostsN (Net.init space) space.length).1.length = space.length :=
    createHostsN_length ..
  have husedlen :
      (createHostsN (Net.init space) space.length).2.used_ips.length = space.length := by
    rw [h1used]
    have h0 : (Net.init space).used_ips = [] := rfl
    rw [h0, List.nil_append, length_filterMap_id_of_isSome h1some, hlenres]
  -- the final state is exhausted: every enumerated address is used
  have hcover : ∀ a ∈ space, a ∈ (createHostsN (Net.init space) space.length).2.used_ips := by
    intro a ha
    have hsubf : (createHostsN (Net.init space) space.length).2.used_ips.toFinset ⊆
        space.toFinset := by
      intro x hx
      exact List.mem_toFinset.mpr (h1mem x (List.mem_toFinset.mp hx))
    have hcards : space.toFinset.card ≤
        (createHostsN (Net.init space) space.length).2.used_ips.toFinset.card := by
      rw [List.toFinset_card_of_nodup h1nd, List.toFinset_card_of_nodup hnd, husedlen]
    have heq := Finset.eq_of_subset_of_card_le hsubf hcards
    rw [← List.mem_toFinset, ← heq, List.mem_toFinset] at ha
    exact ha
  have hfnone : findUnused
      (createHostsN (Net.init space) space.length).2.networkHosts
      (createHostsN (Net.init space) space.length).2.used_ips = none := by
    rw [findUnused_eq_none_iff]
    intro a ha
    rw [h1nh] at ha
    exact hcover a ha
  have hchnone : Net.create_host (createHostsN (Net.init space) space.length).2 =
      (none, (createHostsN (Net.init space) space.length).2) := by
    unfold Net.create_host Net.get_unused_ip
    rw [hfnone]
  have hone : (createHostsN (createHostsN (Net.init space) space.length).2 1).1 =
      [none] := by
    rw [createHostsN_succ_fst, hchnone]
    rfl
  obtain ⟨hadd1, -⟩ := createHostsN_add space.length 1 (Net.init space)
  rw [hadd1, hone]
  refine ⟨?_, ?_, ?_, ?_⟩
  · rw [List.length_append, hlenres]
    rfl
  · intro r hr
    rw [List.take_left' hlenres] at hr
    exact h1some r hr
  · rw [List.filterMap_append]
    have hnonenil : ([none] : List (Option Nat)).filterMap id = [] := rfl
    rw [hnonenil, List.append_nil]
    rw [h1used] at h1nd
    simp only [Net.init, List.nil_append] at h1nd
    exact h1nd
  · exact List.getLast?_concat ..

/-- Witness for C4 on the two-address space `[1, 2]`. -/
theorem c4_exhaustion_witness :
    (createHostsN (Net.init [1, 2]) 3).1.length = 3 ∧
    (∀ r ∈ (createHostsN (Net.init [1, 2]) 3).1.take 2, r.isSome) ∧
    ((createHostsN (Net.init [1, 2]) 3).1.filterMap id).Nodup ∧
    (createHostsN (Net.init [1, 2]) 3).1.getLast? = some none :=
  c4_exhaustion [1, 2] (by decide)
